import Mathlib

/-!
Verification development for the `sphinx-kconfig` Sphinx extension
(`sphinx_kconfig/__init__.py`).

The extension is glue around the external `kconfiglib` parsing library and
the Sphinx documentation framework.  We embed:

* the slice of the `kconfiglib` data model that the extension reads
  (symbols/choices, their declaration sites, expressions, and the
  expression utilities `split_expr`, `expr_str`, `standard_sc_expr_str`);
* the extension's own functions: `kconfig_load` (working-directory
  handling), `sc_fmt` (expression-atom rendering), the database-building
  loop of `kconfig_build_resources`, the `KconfigDomain` registry
  operations (`add_option`, `get_objects`, `merge_domaindata`,
  `resolve_xref`) and the `KconfigSearch.run` directive handler.

Machine-specific effects (file writes, Sphinx node construction) are out of
scope; state the code mutates (the working directory, `env.temp_data`, the
domain data) is threaded explicitly.
-/

namespace SphinxKconfig

/-- An expression atom as seen by `sc_fmt` / `standard_sc_expr_str`: a
`kconfiglib` `Symbol`, a `Choice`, or a constant symbol (`y`, `n`, `m`,
string/int literals).  For a `Symbol` we record the one observable the
extension reads on atoms besides the name: whether `sc.nodes` is nonempty
(`hasNodes`).  A `Choice` with no name has `name = ""` (Python `None` is
falsy, as is the empty string). -/
inductive SCVal where
  | symbol (name : String) (hasNodes : Bool)
  | choice (name : String)
  | constv (name : String)
deriving DecidableEq

/-- `sc.name` attribute access on an expression atom. -/
def SCVal.name : SCVal → String
  | SCVal.symbol n _ => n
  | SCVal.choice n => n
  | SCVal.constv n => n

/-- A `kconfiglib` expression: an atom, or a tuple headed by `NOT`, `AND`
or `OR`.  (Comparison tuples are not needed by any claim and are omitted;
they would behave like atoms for every property proved below.)  The
distinguished constants `kconfig.y` / `kconfig.n` are the atoms
`.atom (.constv "y")` / `.atom (.constv "n")`; identity comparison with
them in the source (`is` / `!=` on the unique constant objects) is
structural equality here, which is faithful because user-defined symbols
use the `SCVal.symbol` constructor. -/
inductive Expr where
  | atom (v : SCVal)
  | enot (a : Expr)
  | eand (a b : Expr)
  | eor (a b : Expr)
deriving DecidableEq

/-- The constant-true expression `sc.kconfig.y`. -/
def yExpr : Expr := Expr.atom (SCVal.constv "y")

/-- The constant-false expression `sc.kconfig.n`. -/
def nExpr : Expr := Expr.atom (SCVal.constv "n")

/-- `sym.name` attribute access on an expression (the source only performs
it on atoms; other shapes would raise `AttributeError` and never occur in
the positions the extension reads). -/
def Expr.atomName : Expr → String
  | Expr.atom v => v.name
  | _ => ""

/-- Models `kconfiglib.split_expr(e, kconfiglib.OR)`: flatten the `OR`
spine of an expression into the list of its OR-terms, left to right. -/
def split_expr_or : Expr → List Expr
  | Expr.eor a b => split_expr_or a ++ split_expr_or b
  | e => [e]

/-- Models `kconfiglib.split_expr(e, kconfiglib.AND)`: flatten the `AND`
spine of an expression into the list of its AND-terms, left to right. -/
def split_expr_and : Expr → List Expr
  | Expr.eand a b => split_expr_and a ++ split_expr_and b
  | e => [e]

/-- The leftmost non-`AND` subterm of an expression; equals
`split_expr_and e |>.headD _` (see `split_expr_and_headD`). -/
def firstAndTerm : Expr → Expr
  | Expr.eand a _ => firstAndTerm a
  | e => e

/-- Models `kconfiglib.standard_sc_expr_str`: the library's default
textual renderer for an expression atom. -/
def standard_sc_expr_str (sc : SCVal) : String :=
  match sc with
  | SCVal.symbol n _ => n
  | SCVal.constv n => n
  | SCVal.choice n => if n = "" then "<choice>" else "<choice " ++ n ++ ">"

/-- Models `sc_fmt` from the extension: custom renderer passed to every
`expr_str` call.  Symbols with at least one declaration site become an
HTML anchor link, unnamed choices a literal marker, named choices a
bracketed anchor link, everything else falls through to
`standard_sc_expr_str`. -/
def sc_fmt (sc : SCVal) : String :=
  match sc with
  | SCVal.symbol name hasNodes =>
    if hasNodes then
      "<a href=\"#CONFIG_" ++ name ++ "\">CONFIG_" ++ name ++ "</a>"
    else
      standard_sc_expr_str sc
  | SCVal.choice name =>
    if name = "" then
      "&ltchoice&gt"
    else
      "&ltchoice <a href=\"#CONFIG_" ++ name ++ "\">CONFIG_" ++ name ++ "</a>&gt"
  | SCVal.constv _ => standard_sc_expr_str sc

/-- Whether an expression is an `OR` tuple (used for parenthesisation in
`expr_str`, mirroring `kconfiglib._parenthesize`). -/
def isOrE : Expr → Bool
  | Expr.eor _ _ => true
  | _ => false

/-- Whether an expression is an `AND` tuple. -/
def isAndE : Expr → Bool
  | Expr.eand _ _ => true
  | _ => false

/-- Parenthesise the rendered string `s` of `e` when `e` is an `OR`. -/
def wrapIfOr (e : Expr) (s : String) : String :=
  if isOrE e then "(" ++ s ++ ")" else s

/-- Parenthesise the rendered string `s` of `e` when `e` is an `AND`. -/
def wrapIfAnd (e : Expr) (s : String) : String :=
  if isAndE e then "(" ++ s ++ ")" else s

/-- Models `kconfiglib.expr_str(e, fmt)`: render an expression with the
callback `fmt` for atoms, `!`/`&&`/`||` connectives, and minimal
parenthesisation exactly as the library does. -/
def expr_str (fmt : SCVal → String) : Expr → String
  | Expr.atom v => fmt v
  | Expr.enot (Expr.atom v) => "!" ++ fmt v
  | Expr.enot e => "!(" ++ expr_str fmt e ++ ")"
  | Expr.eand a b =>
    wrapIfOr a (expr_str fmt a) ++ " && " ++ wrapIfOr b (expr_str fmt b)
  | Expr.eor a b =>
    wrapIfAnd a (expr_str fmt a) ++ " || " ++ wrapIfAnd b (expr_str fmt b)

/-- One ancestor on the menu-tree path of a declaration site: its prompt
(`None` or the prompt text) and its `item` (passed to
`standard_sc_expr_str` when there is no prompt). -/
structure MenuAncestor where
  prompt : Option String
  item : SCVal
deriving DecidableEq

/-- One declaration site (`MenuNode`) of a symbol or choice, carrying the
attributes the extension reads.  `prompt` is `none` for Python `None`,
otherwise the prompt text `node.prompt[0]`; `help` is `none` for `None`.
`ancestors` lists the menu-tree ancestors from the immediate parent
upward, stopping before `top_node` (the source walks `node.parent` links;
we record the walk's spine). -/
structure KNode where
  filename : String
  linenr : Nat
  prompt : Option String
  help : Option String
  dep : Expr
  orig_defaults : List (Expr × Expr)
  orig_selects : List (Expr × Expr)
  orig_implies : List (Expr × Expr)
  orig_ranges : List (Expr × Expr × Expr)
  ancestors : List MenuAncestor
deriving DecidableEq

/-- The `kconfiglib` symbol types, as mapped by `TYPE_TO_STR`. -/
inductive KType where
  | unknown
  | bool
  | tristate
  | string
  | int
  | hex
deriving DecidableEq

/-- Models `kconfiglib.TYPE_TO_STR`. -/
def TYPE_TO_STR : KType → String
  | KType.unknown => "unknown"
  | KType.bool => "bool"
  | KType.tristate => "tristate"
  | KType.string => "string"
  | KType.int => "int"
  | KType.hex => "hex"

/-- A symbol or choice from the evaluated graph, with the attributes the
database builder reads.  `isChoice` distinguishes `kconfiglib.Choice`
from `kconfiglib.Symbol` (`isinstance` checks in the source); a nameless
symbol/choice has `name = ""` (Python `None` and `""` are both falsy).
`syms` lists a choice's member symbols as expression atoms. -/
structure SymChoice where
  name : String
  isChoice : Bool
  nodes : List KNode
  rev_dep : Expr
  weak_rev_dep : Expr
  type : KType
  syms : List SCVal
deriving DecidableEq

/-- Substring test at the head of a character list: does `pat` occur as a
prefix of `s`? -/
def subAt : List Char → List Char → Bool
  | [], _ => true
  | _ :: _, [] => false
  | p :: ps, c :: cs => p == c && subAt ps cs

/-- Does `pat` occur anywhere in `s`? -/
def hasSub (pat : List Char) : List Char → Bool
  | [] => pat.isEmpty
  | c :: cs => subAt pat (c :: cs) || hasSub pat cs

/-- Models the Python substring containment test `pat in s`. -/
def strContains (s pat : String) : Bool := hasSub pat.data s.data

/-- The repeated formatting block of the builder: render `value` with
`expr_str(value, sc_fmt)` and append `" if <cond>"` unless the condition
is the constant `y` (identity check `cond is not sc.kconfig.y`). -/
def fmt_value_cond (value cond : Expr) : String :=
  let fmt := expr_str sc_fmt value
  if cond = yExpr then fmt else fmt ++ " if " ++ expr_str sc_fmt cond

/-- Models the alternate-defaults collection of `kconfig_build_resources`:
for each declaration site whose filename contains `"defconfig"`, render
each original default (with its condition) and pair it with the site's
filename. -/
def alt_defaults_of (sc : SymChoice) : List (String × String) :=
  sc.nodes.flatMap (fun node =>
    if strContains node.filename "defconfig" then
      node.orig_defaults.map (fun vc => (fmt_value_cond vc.1 vc.2, node.filename))
    else [])

/-- Models the `selected_by` computation: when `sc` is a `Symbol` and its
reverse dependency is not the constant `n`, split the reverse dependency
into OR-terms and take `CONFIG_` plus the name of the first AND-term of
each (`split_expr(select, AND)[0].name`; the list is never empty, so the
`headD` default is never used). -/
def selected_by_of (sc : SymChoice) : List String :=
  if sc.isChoice = false ∧ sc.rev_dep ≠ nExpr then
    (split_expr_or sc.rev_dep).map (fun select =>
      "CONFIG_" ++ ((split_expr_and select).headD select).atomName)
  else []

/-- Models the `implied_by` computation, identical to `selected_by_of`
but over the weak reverse dependency. -/
def implied_by_of (sc : SymChoice) : List String :=
  if sc.isChoice = false ∧ sc.weak_rev_dep ≠ nExpr then
    (split_expr_or sc.weak_rev_dep).map (fun select =>
      "CONFIG_" ++ ((split_expr_and select).headD select).atomName)
  else []

/-- Python truthiness of `node.prompt or node.help`: the prompt is a
(truthy) tuple when present; the help text is falsy when `None` or
empty. -/
def nodeHasPromptOrHelp (node : KNode) : Bool :=
  node.prompt.isSome || (match node.help with
    | none => false
    | some h => h != "")

/-- One flattened database record, as assembled in the body of the
per-node loop of `kconfig_build_resources` (the JSON object pushed onto
`db`). -/
structure Record where
  name : String
  prompt : Option String
  type : String
  help : Option String
  dependencies : Option String
  defaults : List String
  alt_defaults : List (String × String)
  selects : List String
  selected_by : List String
  implies : List String
  implied_by : List String
  ranges : List String
  choices : List String
  filename : String
  linenr : Nat
  menupath : String
deriving DecidableEq

/-- The menu-path computation: walk the ancestor spine, prepending
`" > <title>"` per ancestor (prompt text, or the library's fallback
renderer on the ancestor's item), then prefix `"(Top)"`. -/
def menupath_of (ancs : List MenuAncestor) : String :=
  "(Top)" ++ ancs.foldl (fun acc a =>
    (" > " ++ (match a.prompt with
      | some p => p
      | none => standard_sc_expr_str a.item)) ++ acc) ""

/-- The record assembled for one declaration site `node` of `sc`, given
the per-symbol `alt_defaults`, `selected_by` and `implied_by` values
computed before the node loop. -/
def mkRecord (sc : SymChoice) (node : KNode)
    (alt_defaults : List (String × String))
    (selected_by implied_by : List String) : Record :=
  { name := "CONFIG_" ++ sc.name
  , prompt := node.prompt
  , type := TYPE_TO_STR sc.type
  , help := node.help
  , dependencies :=
      if node.dep = yExpr then none else some (expr_str sc_fmt node.dep)
  , defaults := node.orig_defaults.map (fun vc => fmt_value_cond vc.1 vc.2)
  , alt_defaults := alt_defaults
  , selects := node.orig_selects.map (fun vc => fmt_value_cond vc.1 vc.2)
  , selected_by := selected_by
  , implies := node.orig_implies.map (fun vc => fmt_value_cond vc.1 vc.2)
  , implied_by := implied_by
  , ranges := node.orig_ranges.map (fun t =>
      let fmt := "[" ++ expr_str sc_fmt t.1 ++ ", " ++ expr_str sc_fmt t.2.1 ++ "]"
      if t.2.2 = yExpr then fmt else fmt ++ " if " ++ expr_str sc_fmt t.2.2)
  , choices :=
      if sc.isChoice then sc.syms.map (fun s => expr_str sc_fmt (Expr.atom s)) else []
  , filename := node.filename
  , linenr := node.linenr
  , menupath := menupath_of node.ancestors
  }

/-- The duplicate key `f"{node.filename}:{node.linenr}"` of a site. -/
def nodePath (node : KNode) : String :=
  node.filename ++ ":" ++ toString node.linenr

/-- The same key read off an emitted record. -/
def recPath (r : Record) : String :=
  r.filename ++ ":" ++ toString r.linenr

/-- The per-node loop of `kconfig_build_resources`: process the
prompt-or-help sites in order, skipping any whose
`filename:linenr` path was already inserted (`inserted_paths`), and emit
one record per surviving site. -/
def processNodes (sc : SymChoice) (alt_defaults : List (String × String))
    (selected_by implied_by : List String) :
    List KNode → List String → List Record
  | [], _ => []
  | node :: rest, inserted =>
    let path := nodePath node
    if path ∈ inserted then
      processNodes sc alt_defaults selected_by implied_by rest inserted
    else
      mkRecord sc node alt_defaults selected_by implied_by ::
        processNodes sc alt_defaults selected_by implied_by rest (inserted ++ [path])

/-- All database records emitted for one symbol/choice `sc`: the
per-symbol fields are computed once, the declaration sites are filtered
to those with a prompt or help, and the node loop runs with an empty
`inserted_paths`. -/
def sc_records (sc : SymChoice) : List Record :=
  processNodes sc (alt_defaults_of sc) (selected_by_of sc) (implied_by_of sc)
    (sc.nodes.filter nodeHasPromptOrHelp) []

/-- The sort relation of `sorted(..., key=lambda sc: sc.name if sc.name
else "")`: compare names (the nameless key `""` coincides with our
encoding of a missing name). -/
def nameLe (a b : SymChoice) : Prop := a.name ≤ b.name

instance : DecidableRel nameLe :=
  fun a b => inferInstanceAs (Decidable (a.name ≤ b.name))

instance : IsTotal SymChoice nameLe := ⟨fun a b => le_total a.name b.name⟩

instance : IsTrans SymChoice nameLe := ⟨fun _ _ _ h1 h2 => le_trans h1 h2⟩

/-- The whole database-building traversal of `kconfig_build_resources`:
sort the unique symbols and choices by name (Python's stable `sorted`,
modelled by insertion sort), skip nameless ones, and emit each one's
records. -/
def kconfig_build_db (syms choices : List SymChoice) : List Record :=
  (List.insertionSort nameLe (syms ++ choices)).flatMap
    (fun sc => if sc.name = "" then [] else sc_records sc)

/-- One entry of the `KconfigDomain` registry, the 6-tuple appended by
`add_option`. -/
structure ObjEntry where
  name : String
  dispname : String
  objtype : String
  docname : String
  anchor : String
  priority : Int
deriving DecidableEq

/-- Models `KconfigDomain.get_objects`: yields every registry entry. -/
def get_objects (options : List ObjEntry) : List ObjEntry := options

/-- Models `KconfigDomain.add_option`: append the 6-tuple
`(option, option, "option", env.docname, option, -1)`. -/
def add_option (options : List ObjEntry) (docname option : String) :
    List ObjEntry :=
  options ++ [⟨option, option, "option", docname, option, -1⟩]

/-- Models `KconfigDomain.merge_domaindata`:
`self.data["options"] += otherdata["options"]`. -/
def merge_domaindata (options otherOptions : List ObjEntry) : List ObjEntry :=
  options ++ otherOptions

/-- Models `KconfigDomain.resolve_xref`: comprehension over
`get_objects` keeping `(docname, anchor)` of entries whose name equals
the target, then the first match or `None`. -/
def resolve_xref (options : List ObjEntry) (target : String) :
    Option (String × String) :=
  let ms := (get_objects options).filterMap (fun o =>
    if o.name = target then some (o.docname, o.anchor) else none)
  match ms with
  | m :: _ => some m
  | [] => none

/-- The build-time state read and mutated by `KconfigSearch.run`:
the `kconfig_generate_db` config value, the presence of the
`"kconfig_search_inserted"` key in `env.temp_data` (the Sphinx-owned
mapping; per spec §4.4 its lifetime spans the build), the built database
`env.kconfig_db`, the currently rendering document `env.docname`, and the
domain's entry list. -/
structure RunState where
  kconfig_generate_db : Bool
  temp_inserted : Bool
  kconfig_db : List Record
  docname : String
  options : List ObjEntry
deriving DecidableEq

/-- Models `KconfigSearch.run`: raise (as `Except.error` with the state
untouched, since the source raises before any mutation) when the database
is disabled or the directive was already inserted; otherwise set the
one-shot flag and register each distinct database option name to the
current document.  The Python `set` is modelled by `List.dedup` (set
iteration order is unspecified; only the underlying set matters). -/
def KconfigSearch_run (st : RunState) : Except String Unit × RunState :=
  if st.kconfig_generate_db = false then
    (Except.error "Kconfig search directive can not be used without database", st)
  else if st.temp_inserted = true then
    (Except.error "Kconfig search directive can only be used once", st)
  else
    let st1 := { st with temp_inserted := true }
    let unique := (st1.kconfig_db.map Record.name).dedup
    let st2 := { st1 with
      options := unique.foldl (fun acc o => add_option acc st1.docname o) st1.options }
    (Except.ok (), st2)

/-- Models `os.path.split(p)[0]` for POSIX paths: everything before the
last slash, with trailing slashes stripped unless the head is all
slashes. -/
def posix_split_head (p : String) : String :=
  let cs := p.data
  let head := (cs.reverse.dropWhile (fun c => c ≠ '/')).reverse
  if head ≠ [] ∧ ¬ head.all (fun c => c = '/') then
    String.mk ((head.reverse.dropWhile (fun c => c = '/')).reverse)
  else
    String.mk head

/-- Models `kconfig_load`: the explicit working-directory state is the
second component.  `parse p d` abstracts `kconfiglib.Kconfig(p)` run with
current directory `d` (includes resolve against `d`).  On success the
previous directory is restored (`os.chdir(prev)`); on failure the
exception propagates before the restoring `chdir` runs, leaving the
directory changed. -/
def kconfig_load {α : Type} (root_path : String)
    (parse : String → String → Except String α) (cwd : String) :
    Except String α × String :=
  let wd := posix_split_head root_path
  let prev := cwd
  match parse root_path wd with
  | Except.ok kc => (Except.ok kc, prev)
  | Except.error e => (Except.error e, wd)

/-! Concrete inputs used by the witness and counterexample theorems. -/

/-- A plain declaration site with a prompt. -/
def exNode : KNode :=
  { filename := "Kconfig", linenr := 10, prompt := some "Enable foo"
  , help := none, dep := yExpr, orig_defaults := [], orig_selects := []
  , orig_implies := [], orig_ranges := [], ancestors := [] }

/-- A second declaration at the same (filename, linenr) site as `exNode`. -/
def exNodeDup : KNode := { exNode with help := some "second declaration" }

/-- A symbol with two declaration sites sharing one (filename, linenr). -/
def scDup : SymChoice :=
  { name := "FOO", isChoice := false, nodes := [exNode, exNodeDup]
  , rev_dep := nExpr, weak_rev_dep := nExpr, type := KType.bool, syms := [] }

/-- The record the builder emits for the first of `scDup`'s two sites. -/
def rDup : Record :=
  mkRecord scDup exNode (alt_defaults_of scDup) (selected_by_of scDup)
    (implied_by_of scDup)

/-- A site at a different line than `exNode`. -/
def exNodeB : KNode := { exNode with linenr := 20 }

/-- A symbol with two distinct declaration sites. -/
def scTwoSites : SymChoice :=
  { name := "BAR", isChoice := false, nodes := [exNode, exNodeB]
  , rev_dep := nExpr, weak_rev_dep := nExpr, type := KType.bool, syms := [] }

/-- The record for `scTwoSites`'s first site. -/
def rTwoA : Record :=
  mkRecord scTwoSites exNode (alt_defaults_of scTwoSites)
    (selected_by_of scTwoSites) (implied_by_of scTwoSites)

/-- A symbol `A` whose reverse dependency is `B && C`, as produced by a
symbol `B` declaring `select A if C`. -/
def scSelAB : SymChoice :=
  { name := "A", isChoice := false, nodes := [exNode]
  , rev_dep := Expr.eand (Expr.atom (SCVal.symbol "B" true))
      (Expr.atom (SCVal.symbol "C" true))
  , weak_rev_dep := nExpr, type := KType.bool, syms := [] }

/-- A declaration site inside an auxiliary default file (its filename
contains the `"defconfig"` marker) that carries a prompt. -/
def defconfigNode : KNode :=
  { filename := "boards/foo_defconfig", linenr := 5, prompt := some "Foo"
  , help := none, dep := yExpr, orig_defaults := [], orig_selects := []
  , orig_implies := [], orig_ranges := [], ancestors := [] }

/-- A symbol declared (with a prompt) only in an auxiliary default file. -/
def scDefconfigPrompt : SymChoice :=
  { name := "FOO", isChoice := false, nodes := [defconfigNode]
  , rev_dep := nExpr, weak_rev_dep := nExpr, type := KType.bool, syms := [] }

/-- The record the builder emits for `scDefconfigPrompt`'s auxiliary site. -/
def rDefconfig : Record :=
  mkRecord scDefconfigPrompt defconfigNode (alt_defaults_of scDefconfigPrompt)
    (selected_by_of scDefconfigPrompt) (implied_by_of scDefconfigPrompt)

/-- A registry entry for `CONFIG_A` registered to the `search` document. -/
def exEntryA : ObjEntry :=
  ⟨"CONFIG_A", "CONFIG_A", "option", "search", "CONFIG_A", -1⟩

/-- A fresh build state with the database enabled and built. -/
def stFresh : RunState :=
  { kconfig_generate_db := true, temp_inserted := false
  , kconfig_db := [rTwoA, rTwoA], docname := "search", options := [] }

/-- A parse that always fails, abstracting a malformed Kconfig source. -/
def failingParse : String → String → Except String Unit :=
  fun _ _ => Except.error "parse error"

/-- A parse that always succeeds. -/
def okParse : String → String → Except String Unit :=
  fun _ _ => Except.ok ()

/-! Helper lemmas. -/

/-- `split_expr` never returns an empty list. -/
theorem split_expr_and_ne_nil (e : Expr) : split_expr_and e ≠ [] := by
  induction e with
  | atom v => simp [split_expr_and]
  | enot a ih => simp [split_expr_and]
  | eor a b iha ihb => simp [split_expr_and]
  | eand a b iha ihb =>
    simp only [split_expr_and]
    intro h
    exact iha (List.append_eq_nil.mp h).1

/-- The head of the AND-term list is the leftmost non-`AND` subterm. -/
theorem split_expr_and_headD (e d : Expr) :
    (split_expr_and e).headD d = firstAndTerm e := by
  induction e generalizing d with
  | atom v => rfl
  | enot a ih => rfl
  | eor a b iha ihb => rfl
  | eand a b iha ihb =>
    obtain ⟨x, xs, hx⟩ := List.exists_cons_of_ne_nil (split_expr_and_ne_nil a)
    have hxa : x = firstAndTerm a := by
      have h := iha d
      rw [hx] at h
      simpa using h
    simp only [split_expr_and, firstAndTerm, hx, List.cons_append, List.headD_cons]
    exact hxa

/-- Every record the node loop emits is `mkRecord` of one of the nodes. -/
theorem mem_processNodes {sc : SymChoice} {alt : List (String × String)}
    {sel imp : List String} :
    ∀ (ns : List KNode) (seen : List String) (r : Record),
      r ∈ processNodes sc alt sel imp ns seen →
      ∃ nd, nd ∈ ns ∧ r = mkRecord sc nd alt sel imp := by
  intro ns
  induction ns with
  | nil =>
    intro seen r h
    simp [processNodes] at h
  | cons n rest ih =>
    intro seen r h
    simp only [processNodes] at h
    split at h
    · obtain ⟨nd, hmem, hr⟩ := ih _ r h
      exact ⟨nd, List.mem_cons_of_mem _ hmem, hr⟩
    · rcases List.mem_cons.mp h with h1 | h2
      · exact ⟨n, List.mem_cons_self _ _, h1⟩
      · obtain ⟨nd, hmem, hr⟩ := ih _ r h2
        exact ⟨nd, List.mem_cons_of_mem _ hmem, hr⟩

/-- Every record of a symbol comes from one of its prompt-or-help sites
and carries the per-symbol field values. -/
theorem mem_sc_records {sc : SymChoice} {r : Record} (h : r ∈ sc_records sc) :
    ∃ nd, nd ∈ sc.nodes ∧ nodeHasPromptOrHelp nd = true
      ∧ r = mkRecord sc nd (alt_defaults_of sc) (selected_by_of sc)
          (implied_by_of sc) := by
  obtain ⟨nd, hmem, hr⟩ := mem_processNodes _ _ r h
  exact ⟨nd, (List.mem_filter.mp hmem).1, (List.mem_filter.mp hmem).2, hr⟩

/-- The path of every emitted record avoids the already-inserted paths. -/
theorem processNodes_path_not_seen {sc : SymChoice}
    {alt : List (String × String)} {sel imp : List String} :
    ∀ (ns : List KNode) (seen : List String) (r : Record),
      r ∈ processNodes sc alt sel imp ns seen → recPath r ∉ seen := by
  intro ns
  induction ns with
  | nil =>
    intro seen r h
    simp [processNodes] at h
  | cons n rest ih =>
    intro seen r h
    simp only [processNodes] at h
    split at h
    · exact ih _ r h
    · rcases List.mem_cons.mp h with h1 | h2
      · rw [h1]
        rename_i hc
        exact hc
      · intro hin
        exact ih _ r h2 (List.mem_append_left _ hin)

/-- The emitted records have pairwise distinct paths. -/
theorem processNodes_pairwise {sc : SymChoice}
    {alt : List (String × String)} {sel imp : List String} :
    ∀ (ns : List KNode) (seen : List String),
      List.Pairwise (fun r1 r2 => recPath r1 ≠ recPath r2)
        (processNodes sc alt sel imp ns seen) := by
  intro ns
  induction ns with
  | nil => intro seen; simp [processNodes]
  | cons n rest ih =>
    intro seen
    simp only [processNodes]
    split
    · exact ih _
    · refine List.Pairwise.cons ?_ (ih _)
      intro r hr heq
      have hnot := processNodes_path_not_seen rest (seen ++ [nodePath n]) r hr
      have hrp : recPath (mkRecord sc n alt sel imp) = nodePath n := rfl
      rw [hrp] at heq
      exact hnot (by rw [← heq]; exact List.mem_append_right _ (List.mem_singleton.mpr rfl))

/-- First-wins: each emitted record is `mkRecord` of the first node in
the processed list carrying its (filename, linenr) pair. -/
theorem processNodes_first_wins {sc : SymChoice}
    {alt : List (String × String)} {sel imp : List String} :
    ∀ (ns : List KNode) (seen : List String) (r : Record),
      r ∈ processNodes sc alt sel imp ns seen →
      ∃ nd, ns.find? (fun n => n.filename == r.filename && n.linenr == r.linenr)
          = some nd
        ∧ r = mkRecord sc nd alt sel imp := by
  intro ns
  induction ns with
  | nil =>
    intro seen r h
    simp [processNodes] at h
  | cons n rest ih =>
    intro seen r h
    simp only [processNodes] at h
    split at h
    case isTrue hc =>
      have hnot := processNodes_path_not_seen rest seen r h
      have hb : (n.filename == r.filename && n.linenr == r.linenr) = false := by
        rw [Bool.eq_false_iff]
        intro hb
        simp only [Bool.and_eq_true, beq_iff_eq] at hb
        have hp : nodePath n = recPath r := by
          simp only [nodePath, recPath, hb.1, hb.2]
        exact hnot (hp ▸ hc)
      obtain ⟨nd, hf, hr⟩ := ih _ r h
      refine ⟨nd, ?_, hr⟩
      rw [List.find?_cons]
      simp only [hb]
      exact hf
    case isFalse hc =>
      rcases List.mem_cons.mp h with h1 | h2
      · refine ⟨n, ?_, h1⟩
        have hb : (n.filename == r.filename && n.linenr == r.linenr) = true := by
          rw [h1]
          simp [mkRecord]
        rw [List.find?_cons]
        simp only [hb]
      · have hnot := processNodes_path_not_seen rest (seen ++ [nodePath n]) r h2
        have hb : (n.filename == r.filename && n.linenr == r.linenr) = false := by
          rw [Bool.eq_false_iff]
          intro hb
          simp only [Bool.and_eq_true, beq_iff_eq] at hb
          have hp : nodePath n = recPath r := by
            simp only [nodePath, recPath, hb.1, hb.2]
          exact hnot (by
            rw [← hp]
            exact List.mem_append_right _ (List.mem_singleton.mpr rfl))
        obtain ⟨nd, hf, hr⟩ := ih _ r h2
        refine ⟨nd, ?_, hr⟩
        rw [List.find?_cons]
        simp only [hb]
        exact hf

/-- Coverage: every processed node whose path is not yet inserted is
represented by an emitted record with the same path. -/
theorem processNodes_covers {sc : SymChoice}
    {alt : List (String × String)} {sel imp : List String} :
    ∀ (ns : List KNode) (seen : List String) (nd : KNode),
      nd ∈ ns → nodePath nd ∉ seen →
      ∃ r, r ∈ processNodes sc alt sel imp ns seen ∧ recPath r = nodePath nd := by
  intro ns
  induction ns with
  | nil =>
    intro seen nd h
    simp at h
  | cons n rest ih =>
    intro seen nd hmem hnot
    simp only [processNodes]
    split
    case isTrue hc =>
      rcases List.mem_cons.mp hmem with h1 | h2
      · subst h1
        exact absurd hc hnot
      · exact ih seen nd h2 hnot
    case isFalse hc =>
      rcases List.mem_cons.mp hmem with h1 | h2
      · subst h1
        exact ⟨mkRecord sc nd alt sel imp, List.mem_cons_self _ _, rfl⟩
      · by_cases hpq : nodePath nd = nodePath n
        · exact ⟨mkRecord sc n alt sel imp, List.mem_cons_self _ _, hpq.symm⟩
        · obtain ⟨r, hrmem, hrp⟩ := ih (seen ++ [nodePath n]) nd h2 (by
            intro hin
            rcases List.mem_append.mp hin with ha | hb
            · exact hnot ha
            · exact hpq (List.mem_singleton.mp hb))
          exact ⟨r, List.mem_cons_of_mem _ hrmem, hrp⟩

/-- Bulk registration appends one entry per name, in order. -/
theorem foldl_add_option (docname : String) :
    ∀ (names : List String) (opts : List ObjEntry),
      names.foldl (fun acc o => add_option acc docname o) opts
        = opts ++ names.map (fun o => ObjEntry.mk o o "option" docname o (-1)) := by
  intro names
  induction names with
  | nil => intro opts; simp
  | cons h t ih =>
    intro opts
    simp only [List.foldl_cons, List.map_cons]
    rw [ih, add_option, List.append_assoc]
    rfl

/-- Skipping nameless symbols is filtering before emitting. -/
theorem flatMap_skip_nameless (l : List SymChoice) :
    l.flatMap (fun sc => if sc.name = "" then [] else sc_records sc)
      = ((l.filter (fun sc => !(sc.name == ""))).map sc_records).flatten := by
  induction l with
  | nil => rfl
  | cons sc rest ih =>
    by_cases h : sc.name = ""
    · simp [List.flatMap_cons, List.filter_cons, h, ih]
    · simp [List.flatMap_cons, List.filter_cons, h, ih]

/-- `resolve_xref` is the head of the comprehension's result list. -/
theorem resolve_xref_eq_head (options : List ObjEntry) (target : String) :
    resolve_xref options target
      = (options.filterMap (fun o =>
          if o.name = target then some (o.docname, o.anchor) else none)).head? := by
  unfold resolve_xref get_objects
  cases h : options.filterMap
      (fun o => if o.name = target then some (o.docname, o.anchor) else none) with
  | nil => simp [h]
  | cons m ms => simp [h]

/-! Claim theorems. -/

/-- C1: for a symbol whose reverse dependency is not the constant false,
`selected_by` is obtained by splitting the reverse dependency into
OR-terms and prefixing the first AND-term's name with `CONFIG_`; the
condition of a forward `select A if C` edge (the `&& C` part of the
OR-term) is dropped, so a reverse dependency `B && C` yields exactly
`["CONFIG_B"]` for every `C`; `implied_by` is computed the same way from
the weak reverse dependency, and the emitted records carry these lists. -/
theorem selected_by_drops_select_condition (sc : SymChoice)
    (hsym : sc.isChoice = false) :
    (sc.rev_dep ≠ nExpr →
      selected_by_of sc = (split_expr_or sc.rev_dep).map
        (fun t => "CONFIG_" ++ (firstAndTerm t).atomName))
    ∧ (sc.weak_rev_dep ≠ nExpr →
      implied_by_of sc = (split_expr_or sc.weak_rev_dep).map
        (fun t => "CONFIG_" ++ (firstAndTerm t).atomName))
    ∧ (∀ bName bNodes cond,
      sc.rev_dep = Expr.eand (Expr.atom (SCVal.symbol bName bNodes)) cond →
      selected_by_of sc = ["CONFIG_" ++ bName])
    ∧ (∀ r ∈ sc_records sc,
      r.selected_by = selected_by_of sc ∧ r.implied_by = implied_by_of sc) := by
  refine ⟨?_, ?_, ?_, ?_⟩
  · intro hrd
    unfold selected_by_of
    rw [if_pos (And.intro hsym hrd)]
    simp only [split_expr_and_headD]
  · intro hrd
    unfold implied_by_of
    rw [if_pos (And.intro hsym hrd)]
    simp only [split_expr_and_headD]
  · intro bName bNodes cond heq
    have hrd : sc.rev_dep ≠ nExpr := by
      rw [heq]
      intro hcon
      exact Expr.noConfusion hcon
    unfold selected_by_of
    rw [if_pos (And.intro hsym hrd), heq]
    simp [split_expr_or, split_expr_and, Expr.atomName, SCVal.name]
  · intro r hr
    obtain ⟨nd, _, _, hrec⟩ := mem_sc_records hr
    rw [hrec]
    exact ⟨rfl, rfl⟩

/-- Witness for C1: for symbol `A` with reverse dependency `B && C`
(from `select A if C` in symbol `B`), `selected_by` is `["CONFIG_B"]`,
with the condition `C` dropped. -/
theorem selected_by_drops_select_condition_witness :
    selected_by_of scSelAB = ["CONFIG_B"] :=
  (selected_by_drops_select_condition scSelAB rfl).2.2.1 "B" true
    (Expr.atom (SCVal.symbol "C" true)) rfl

/-- C2: among the records of one symbol, the (filename, linenr) pairs are
pairwise distinct, and each record is built from the first processed
declaration site carrying its (filename, linenr); later sites with the
same site key are suppressed. -/
theorem sc_records_unique_per_site (sc : SymChoice) :
    List.Pairwise
      (fun r1 r2 => ¬(r1.filename = r2.filename ∧ r1.linenr = r2.linenr))
      (sc_records sc)
    ∧ (∀ r ∈ sc_records sc,
      ∃ nd, (sc.nodes.filter nodeHasPromptOrHelp).find?
          (fun n => n.filename == r.filename && n.linenr == r.linenr) = some nd
        ∧ r = mkRecord sc nd (alt_defaults_of sc) (selected_by_of sc)
            (implied_by_of sc)) := by
  constructor
  · have hp := @processNodes_pairwise sc (alt_defaults_of sc)
      (selected_by_of sc) (implied_by_of sc)
      (sc.nodes.filter nodeHasPromptOrHelp) []
    refine hp.imp ?_
    intro r1 r2 h12 hpair
    exact h12 (by simp only [recPath, hpair.1, hpair.2])
  · intro r hr
    exact processNodes_first_wins _ [] r hr

/-- Witness for C2: `scDup` has two declaration sites sharing
(`"Kconfig"`, 10); the emitted record `rDup` traces back to the first of
them. -/
theorem sc_records_unique_per_site_witness :
    rDup ∈ sc_records scDup
    ∧ ∃ nd, (scDup.nodes.filter nodeHasPromptOrHelp).find?
        (fun n => n.filename == rDup.filename && n.linenr == rDup.linenr)
        = some nd
      ∧ rDup = mkRecord scDup nd (alt_defaults_of scDup) (selected_by_of scDup)
          (implied_by_of scDup) :=
  ⟨by decide, (sc_records_unique_per_site scDup).2 rDup (by decide)⟩

/-- C4: cross-reference resolution linearly scans the registry for an
exact name match: it returns `none` exactly when no entry has the target
name, and otherwise the (docname, anchor) of the first matching entry in
registration order. -/
theorem resolve_xref_first_match (options : List ObjEntry) (target : String) :
    (resolve_xref options target = none ↔ ∀ o ∈ options, o.name ≠ target)
    ∧ (∀ o, options.find? (fun o => o.name == target) = some o →
      resolve_xref options target = some (o.docname, o.anchor)) := by
  constructor
  · rw [resolve_xref_eq_head]
    rw [List.head?_eq_none_iff]
    rw [List.filterMap_eq_nil_iff]
    constructor
    · intro h o ho hname
      have := h o ho
      rw [if_pos hname] at this
      exact Option.noConfusion this
    · intro h o ho
      rw [if_neg (h o ho)]
  · induction options with
    | nil =>
      intro o h
      simp at h
    | cons e rest ih =>
      intro o h
      by_cases hn : e.name = target
      · have hb : (e.name == target) = true := beq_iff_eq.mpr hn
        rw [List.find?_cons] at h
        simp only [hb] at h
        have he : e = o := Option.some.inj h
        rw [resolve_xref_eq_head]
        simp only [List.filterMap_cons, if_pos hn, List.head?_cons]
        rw [he]
      · have hb : (e.name == target) = false := by
          rw [Bool.eq_false_iff]
          intro hbb
          exact hn (beq_iff_eq.mp hbb)
        rw [List.find?_cons] at h
        simp only [hb] at h
        have := ih o h
        rw [resolve_xref_eq_head] at this ⊢
        simpa only [List.filterMap_cons, if_neg hn] using this

/-- Witness for C4: resolving `CONFIG_A` in a registry holding a single
entry for it yields that entry's (docname, anchor). -/
theorem resolve_xref_first_match_witness :
    resolve_xref [exEntryA] "CONFIG_A" = some ("search", "CONFIG_A") :=
  (resolve_xref_first_match [exEntryA] "CONFIG_A").2 exEntryA (by decide)

/-- C5: merging domain data concatenates the other registry's entry list
verbatim onto the end of the current one — order preserved, no
deduplication (merging two copies of the same entry keeps both), no
conflict detection, lengths add. -/
theorem merge_domaindata_concat :
    (∀ xs ys : List ObjEntry, merge_domaindata xs ys = xs ++ ys)
    ∧ (∀ a b : ObjEntry, merge_domaindata [a] [b] = [a, b])
    ∧ (∀ a : ObjEntry, merge_domaindata [a] [a] = [a, a])
    ∧ (∀ xs ys : List ObjEntry,
      (merge_domaindata xs ys).length = xs.length + ys.length) := by
  refine ⟨fun xs ys => rfl, fun a b => rfl, fun a => rfl, fun xs ys => ?_⟩
  simp [merge_domaindata]

/-- C9: `sc_fmt` renders a symbol with declaration sites as an anchor
link to `CONFIG_<name>`, an unnamed choice as the literal choice marker,
a named choice as a bracketed anchor link, and every other atom
(including symbols without declaration sites) via the library's default
renderer `standard_sc_expr_str`. -/
theorem sc_fmt_cases :
    (∀ n, sc_fmt (SCVal.symbol n true)
      = "<a href=\"#CONFIG_" ++ n ++ "\">CONFIG_" ++ n ++ "</a>")
    ∧ (∀ n, sc_fmt (SCVal.symbol n false)
      = standard_sc_expr_str (SCVal.symbol n false))
    ∧ sc_fmt (SCVal.choice "") = "&ltchoice&gt"
    ∧ (∀ n, n ≠ "" → sc_fmt (SCVal.choice n)
      = "&ltchoice <a href=\"#CONFIG_" ++ n ++ "\">CONFIG_" ++ n ++ "</a>&gt")
    ∧ (∀ v, sc_fmt (SCVal.constv v) = standard_sc_expr_str (SCVal.constv v)) := by
  refine ⟨fun n => rfl, fun n => rfl, rfl, fun n hn => ?_, fun v => rfl⟩
  simp [sc_fmt, hn]

/-- Witness for C9: the named choice `FOO` renders as a bracketed anchor
link. -/
theorem sc_fmt_cases_witness :
    sc_fmt (SCVal.choice "FOO")
      = "&ltchoice <a href=\"#CONFIG_" ++ "FOO" ++ "\">CONFIG_" ++ "FOO"
        ++ "</a>&gt" :=
  sc_fmt_cases.2.2.2.1 "FOO" (by decide)

/-- C10: `alt_defaults`, `selected_by` and `implied_by` are computed once
per symbol before the node loop, so every record of the same symbol
carries those exact values — in particular any two records of one symbol
agree on all three fields. -/
theorem per_symbol_fields_constant (sc : SymChoice) :
    (∀ r ∈ sc_records sc,
      r.alt_defaults = alt_defaults_of sc
      ∧ r.selected_by = selected_by_of sc
      ∧ r.implied_by = implied_by_of sc)
    ∧ (∀ r1 ∈ sc_records sc, ∀ r2 ∈ sc_records sc,
      r1.alt_defaults = r2.alt_defaults
      ∧ r1.selected_by = r2.selected_by
      ∧ r1.implied_by = r2.implied_by) := by
  have key : ∀ r ∈ sc_records sc,
      r.alt_defaults = alt_defaults_of sc
      ∧ r.selected_by = selected_by_of sc
      ∧ r.implied_by = implied_by_of sc := by
    intro r hr
    obtain ⟨nd, _, _, hrec⟩ := mem_sc_records hr
    rw [hrec]
    exact ⟨rfl, rfl, rfl⟩
  refine ⟨key, ?_⟩
  intro r1 h1 r2 h2
  obtain ⟨a1, s1, i1⟩ := key r1 h1
  obtain ⟨a2, s2, i2⟩ := key r2 h2
  exact ⟨a1.trans a2.symm, s1.trans s2.symm, i1.trans i2.symm⟩

/-- Witness for C10: the first record of the two-site symbol `scTwoSites`
carries the per-symbol values. -/
theorem per_symbol_fields_constant_witness :
    rTwoA.alt_defaults = alt_defaults_of scTwoSites
    ∧ rTwoA.selected_by = selected_by_of scTwoSites
    ∧ rTwoA.implied_by = implied_by_of scTwoSites :=
  (per_symbol_fields_constant scTwoSites).1 rTwoA (by decide)

/-- C3: the search directive's inserted flag is one state for the build
(the state record carries it independently of any document): with
database generation disabled the run fails with the "without database"
error and the state unchanged; with the flag already set it fails with
the "only be used once" error and the state unchanged; otherwise it
succeeds, sets the flag, registers every distinct database option name
exactly once to the currently rendering document, and any later run —
whatever document is then current — fails with the "only be used once"
error. -/
theorem kconfig_search_state_machine (st : RunState) :
    (st.kconfig_generate_db = false →
      KconfigSearch_run st =
        (Except.error "Kconfig search directive can not be used without database",
          st))
    ∧ (st.kconfig_generate_db = true → st.temp_inserted = true →
      KconfigSearch_run st =
        (Except.error "Kconfig search directive can only be used once", st))
    ∧ (st.kconfig_generate_db = true → st.temp_inserted = false →
      ∃ st2, KconfigSearch_run st = (Except.ok (), st2)
        ∧ st2.temp_inserted = true
        ∧ st2.kconfig_generate_db = true
        ∧ st2.docname = st.docname
        ∧ st2.options = st.options ++ ((st.kconfig_db.map Record.name).dedup).map
            (fun o => ObjEntry.mk o o "option" st.docname o (-1))
        ∧ ((st.kconfig_db.map Record.name).dedup).Nodup
        ∧ (∀ n, n ∈ (st.kconfig_db.map Record.name).dedup ↔
            ∃ r ∈ st.kconfig_db, r.name = n)
        ∧ (∀ d, (KconfigSearch_run { st2 with docname := d }).1 =
            Except.error "Kconfig search directive can only be used once")) := by
  refine ⟨?_, ?_, ?_⟩
  · intro h1
    simp [KconfigSearch_run, h1]
  · intro h1 h2
    simp [KconfigSearch_run, h1, h2]
  · intro h1 h2
    have hiff : ∀ n, n ∈ (st.kconfig_db.map Record.name).dedup ↔
        ∃ r ∈ st.kconfig_db, r.name = n := by
      intro n
      rw [List.mem_dedup, List.mem_map]
    have hrun : KconfigSearch_run st = (Except.ok (), { st with
        temp_inserted := true,
        options := st.options ++ ((st.kconfig_db.map Record.name).dedup).map
          (fun o => ObjEntry.mk o o "option" st.docname o (-1)) }) := by
      simp [KconfigSearch_run, h1, h2, foldl_add_option]
    refine ⟨{ st with
                temp_inserted := true,
                options := st.options ++ ((st.kconfig_db.map Record.name).dedup).map
                  (fun o => ObjEntry.mk o o "option" st.docname o (-1)) },
      hrun, rfl, h1, rfl, rfl, List.nodup_dedup _, hiff, ?_⟩
    intro d
    simp [KconfigSearch_run, h1]

/-- Witness for C3: running the directive on a fresh enabled state
succeeds and registers the database's one distinct option name. -/
theorem kconfig_search_state_machine_witness :
    ∃ st2, KconfigSearch_run stFresh = (Except.ok (), st2)
      ∧ st2.temp_inserted = true
      ∧ st2.kconfig_generate_db = true
      ∧ st2.docname = stFresh.docname
      ∧ st2.options = stFresh.options
          ++ ((stFresh.kconfig_db.map Record.name).dedup).map
            (fun o => ObjEntry.mk o o "option" stFresh.docname o (-1))
      ∧ ((stFresh.kconfig_db.map Record.name).dedup).Nodup
      ∧ (∀ n, n ∈ (stFresh.kconfig_db.map Record.name).dedup ↔
          ∃ r ∈ stFresh.kconfig_db, r.name = n)
      ∧ (∀ d, (KconfigSearch_run { st2 with docname := d }).1 =
          Except.error "Kconfig search directive can only be used once") :=
  (kconfig_search_state_machine stFresh).2.2 rfl rfl

/-- C6: the database traversal emits records grouped by symbol/choice —
a flattening of per-symbol blocks taken in non-decreasing name order —
with every block's records named `CONFIG_<name>` of its (named) symbol;
nameless symbols and choices contribute no block. -/
theorem kconfig_build_db_sorted (syms choices : List SymChoice) :
    ∃ scs : List SymChoice,
      (∀ sc ∈ scs, sc ∈ syms ++ choices ∧ sc.name ≠ "")
      ∧ List.Sorted nameLe scs
      ∧ kconfig_build_db syms choices = (scs.map sc_records).flatten
      ∧ (∀ sc ∈ scs, ∀ r ∈ sc_records sc, r.name = "CONFIG_" ++ sc.name) := by
  refine ⟨(List.insertionSort nameLe (syms ++ choices)).filter
      (fun sc => !(sc.name == "")), ?_, ?_, ?_, ?_⟩
  · intro sc hsc
    have h1 := List.mem_filter.mp hsc
    refine ⟨(List.perm_insertionSort nameLe (syms ++ choices)).mem_iff.mp h1.1, ?_⟩
    simpa using h1.2
  · exact (List.sorted_insertionSort nameLe _).filter _
  · exact flatMap_skip_nameless _
  · intro sc _ r hr
    obtain ⟨nd, _, _, hrec⟩ := mem_sc_records hr
    rw [hrec]
    rfl

/-- C7 counterexample: a declaration site inside an auxiliary default
file (filename containing `"defconfig"`) that carries a prompt does
produce a database record — the builder's node loop filters only on
prompt/help, not on the auxiliary-file marker — refuting the claim that
auxiliary sites produce no record. -/
theorem record_emitted_for_defconfig_site :
    (sc_records scDefconfigPrompt).map (fun r => (r.filename, r.linenr))
      = [("boards/foo_defconfig", 5)]
    ∧ strContains "boards/foo_defconfig" "defconfig" = true := by
  constructor
  · decide
  · decide

/-- C7 as amended: a record is emitted exactly for the declaration sites
that carry a prompt or help text — regardless of whether the site lies
in an auxiliary default file — with duplicate (filename, linenr) sites
suppressed: every record comes from a prompt-or-help site, and every
prompt-or-help site is represented by a record with its site key. -/
theorem sc_records_prompt_or_help (sc : SymChoice) :
    (∀ r ∈ sc_records sc,
      ∃ nd, nd ∈ sc.nodes ∧ nodeHasPromptOrHelp nd = true
        ∧ r = mkRecord sc nd (alt_defaults_of sc) (selected_by_of sc)
            (implied_by_of sc))
    ∧ (∀ nd ∈ sc.nodes.filter nodeHasPromptOrHelp,
      ∃ r, r ∈ sc_records sc ∧ recPath r = nodePath nd) := by
  constructor
  · intro r hr
    exact mem_sc_records hr
  · intro nd hnd
    exact processNodes_covers _ [] nd hnd (by simp)

/-- Witness for C7 (amended): the auxiliary-file record of
`scDefconfigPrompt` traces back to its prompted declaration site. -/
theorem sc_records_prompt_or_help_witness :
    ∃ nd, nd ∈ scDefconfigPrompt.nodes ∧ nodeHasPromptOrHelp nd = true
      ∧ rDefconfig = mkRecord scDefconfigPrompt nd
          (alt_defaults_of scDefconfigPrompt) (selected_by_of scDefconfigPrompt)
          (implied_by_of scDefconfigPrompt) :=
  (sc_records_prompt_or_help scDefconfigPrompt).1 rDefconfig (by decide)

/-- C8 counterexample: when the parse fails, the loader's restoring
`chdir` never runs — after `kconfig_load` of `proj/Kconfig` from working
directory `/build` with a failing parse, the working directory is `proj`,
not the original `/build` — refuting "restores ... including when the
parse fails". -/
theorem kconfig_load_cwd_not_restored_on_error :
    (kconfig_load "proj/Kconfig" failingParse "/build").2 = "proj"
    ∧ "proj" ≠ "/build" := by
  constructor
  · decide
  · decide

/-- C8 as amended: the loader switches the working directory to the root
configuration file's directory for the parse; when the parse succeeds the
previous working directory is restored, but when the parse fails the
error propagates with the working directory left at the root file's
directory. -/
theorem kconfig_load_cwd {α : Type} (root cwd0 : String)
    (parse : String → String → Except String α) :
    (∀ kc, parse root (posix_split_head root) = Except.ok kc →
      kconfig_load root parse cwd0 = (Except.ok kc, cwd0))
    ∧ (∀ e, parse root (posix_split_head root) = Except.error e →
      kconfig_load root parse cwd0 = (Except.error e, posix_split_head root)) := by
  constructor
  · intro kc h
    simp [kconfig_load, h]
  · intro e h
    simp [kconfig_load, h]

/-- Witness for C8 (amended): with a succeeding parse the working
directory is restored to `/build`. -/
theorem kconfig_load_cwd_witness :
    kconfig_load "proj/Kconfig" okParse "/build" = (Except.ok (), "/build") :=
  (kconfig_load_cwd "proj/Kconfig" "/build" okParse).1 () rfl

end SphinxKconfig
